import Mathlib

/-!
Verification of the sWFME process/orchestration engine
(`swfme/core/parameters.py` and `swfme/core/process.py`).

The Python code is shallowly embedded: mutable objects become records,
in-place mutating methods become functions returning the updated record,
raised exceptions become explicit error values (a method that may raise is
modelled as returning the updated receiver together with `Option`/`Except`
error information; a raise that happens before any field assignment returns
the receiver unchanged, exactly as the source does).
-/

namespace SWFME

/-! ### Parameter layer — `swfme/core/parameters.py` -/

/-- `ParameterPhase` (parameters.py lines 12-15). -/
inductive ParameterPhase
  | init
  | runtime
  deriving DecidableEq, Repr

/-- The Python classes that appear as parameter types in this code base
(floats and arbitrary user classes are not needed by any claim; user classes
fall under the `complexT` fallback of `PyType`). -/
inductive PyClass
  | intC
  | strC
  | boolC
  | listC
  | dictC
  deriving DecidableEq, Repr

/-- Python runtime values (the kinds the engine's type check can see). -/
inductive Val
  | vInt (n : Int)
  | vBool (b : Bool)
  | vStr (s : String)
  | vList (elems : List Val)
  | vDict (pairs : List (Val × Val))

/-- `isinstance(val, cls)` for the modelled classes.  Python's `bool` is a
subclass of `int`, so a `vBool` is an instance of `intC` as well. -/
def isInst : Val → PyClass → Bool
  | .vInt _, .intC => true
  | .vBool _, .boolC => true
  | .vBool _, .intC => true
  | .vStr _, .strC => true
  | .vList _, .listC => true
  | .vDict _, .dictC => true
  | _, _ => false

/-- A `param_type` argument: either a plain class (`isinstance` check), a
generic alias such as `List[int]` (checked via `get_origin` only), or some
other type object (the code's fallback branch accepts anything). -/
inductive PyType
  | simple (c : PyClass)
  | generic (origin : PyClass) (args : List PyClass)
  | complexT
  deriving Repr

/-- The exceptions raised by the parameter layer: `RuntimeError` for a write
to a locked parameter, `TypeError` for a type mismatch, `ValueError` for a
missing required value (parameters.py lines 64-65, 73-77, 127-128). -/
inductive PErr
  | locked (pname : String)
  | typeMismatch (pname : String)
  | missingRequired (pname : String)
  deriving DecidableEq, Repr

/-- The message `str(e)` of each parameter-layer exception (the f-strings at
parameters.py lines 65, 74-77, 128; the type names inside the
type-mismatch message are abbreviated, no claim depends on them). -/
def PErr.toMessage : PErr → String
  | .locked n => "Parameter '" ++ n ++ "' is locked and cannot be modified"
  | .typeMismatch n => "Parameter '" ++ n ++ "' expects a different type"
  | .missingRequired n => "Required parameter '" ++ n ++ "' is not set"

/-- `Parameter` (parameters.py lines 18-48): `_value` is `value`, `_locked`
is `locked`.  `InputParameter`/`OutputParameter` add nothing over the base
class, so a single record models all three. -/
structure Param where
  name : String
  param_type : PyType
  required : Bool
  value : Option Val
  locked : Bool
  phase : ParameterPhase

/-- `Parameter._validate_type` (parameters.py lines 81-102): `None` is valid
iff the parameter is optional; a plain class uses `isinstance`; a generic
alias checks only the outer container kind; anything else is accepted. -/
def validate_type (p : Param) (val : Option Val) : Bool :=
  match val with
  | none => !p.required
  | some v =>
    match p.param_type with
    | .simple c => isInst v c
    | .generic origin _ => isInst v origin
    | .complexT => true

/-- The `value` setter (parameters.py lines 55-79).  The result is the
updated parameter together with the raised exception, if any; on every raise
the returned parameter is the receiver unchanged, because the source assigns
`self._value` only after all checks pass. -/
def setValue (p : Param) (val : Option Val) : Param × Option PErr :=
  if p.locked then (p, some (.locked p.name))
  else if val.isNone && !p.required then ({ p with value := none }, none)
  else if !(validate_type p val) then (p, some (.typeMismatch p.name))
  else ({ p with value := val }, none)

/-- `Parameter.lock` (parameters.py lines 104-107). -/
def lock (p : Param) : Param :=
  { p with locked := true, phase := .runtime }

/-- `Parameter.unlock` (parameters.py lines 109-111). -/
def unlock (p : Param) : Param :=
  { p with locked := false }

/-- `Parameter.validate` (parameters.py lines 117-129). -/
def validate (p : Param) : Except PErr Bool :=
  if p.required && p.value.isNone then .error (.missingRequired p.name)
  else .ok true

/-- A `ParameterSet` as the insertion-ordered list of its parameters
(parameters.py lines 193-263; the name-keyed lookup is not needed by any
claim, only the ordered iteration used by the `*_all` methods). -/
abbrev ParamList := List Param

/-- `ParameterSet.validate_all` (parameters.py lines 241-253): surfaces the
first failure. -/
def validateAll : ParamList → Except PErr Bool
  | [] => .ok true
  | p :: ps =>
    match validate p with
    | .error e => .error e
    | .ok _ => validateAll ps

/-- `ParameterSet.lock_all` (parameters.py lines 255-258). -/
def lockAll (ps : ParamList) : ParamList := ps.map lock

/-- `ParameterSet.unlock_all` (parameters.py lines 260-263). -/
def unlockAll (ps : ParamList) : ParamList := ps.map unlock

/-! ### Process lifecycle — `Process.execute`, process.py lines 139-199

`execute()` is a template method; the subclass hook `execute_impl` and the
possibility that a locally registered event handler raises during
`_emit_event` (process.py lines 231-234: local handlers are awaited with no
try/except around them, while `event_bus.emit` itself swallows handler
errors) are supplied by an environment record.  Wall-clock timestamps are
abstract numbers.  `execute` returns the outcome seen by the caller, the
final object state, and the ordered trace of the lifecycle steps it
performed. -/

/-- `ProcessStatus` (process.py lines 21-27). -/
inductive ProcessStatus
  | pending
  | running
  | completed
  | failed
  | cancelled
  deriving DecidableEq, Repr

/-- The mutable fields of `Process` that `execute()` touches
(process.py lines 98-119), over a type `σ` of subclass-specific state
(`Unit` for an atomic process, the orchestration state for
`OrchestratedProcess`). -/
structure ProcState (σ : Type) where
  status : ProcessStatus
  started_at : Option Nat
  completed_at : Option Nat
  error : Option String
  input : ParamList
  output : ParamList
  extra : σ

/-- The state of a freshly constructed process (`Process.__init__`,
process.py lines 98-122): status `PENDING`, no timestamps, no error, with
the parameter sets produced by `define_parameters`. -/
def initProc (inp out : ParamList) (x : σ) : ProcState σ :=
  { status := .pending, started_at := none, completed_at := none,
    error := none, input := inp, output := out, extra := x }

/-- What a call to `execute()` does as seen by its caller: the Python
method either returns a boolean or lets an exception escape. -/
inductive ExecOutcome
  | ret (b : Bool)
  | raised (msg : String)
  deriving DecidableEq, Repr

/-- One lifecycle step of `execute()`, in the order the source performs
them; the trace of these steps is returned alongside the result. -/
inductive Act
  | setRunning
  | setStarted
  | emitStarted
  | validateInputs
  | lockInputs
  | runImpl
  | validateOutputs
  | setCompleted
  | emitCompleted
  | setFailed
  | emitFailed
  | unlockInputs
  deriving DecidableEq, Repr

/-- Environment of one `execute()` call: the `execute_impl` body (returning
the mutated state and the raised exception's message, if any), whether a
local event handler raises at each of the three `_emit_event` call sites of
`execute()` (`some m` = a handler raises with message `m`), and the two
wall-clock readings. -/
structure ExecEnv (σ : Type) where
  impl : ProcState σ → ProcState σ × Option String
  emitStartedExn : Option String
  emitCompletedExn : Option String
  emitFailedExn : Option String
  now1 : Nat
  now2 : Nat

/-- The `except Exception` handler of `execute()` (process.py lines
183-195) followed by the `finally` block (lines 197-199): set status
`FAILED`, record `completed_at` and `error`, emit the "failed" event — a
raise from a local "failed" handler escapes `execute()` itself — and
unconditionally unlock the inputs. -/
def exceptPath (env : ExecEnv σ) (st : ProcState σ) (tr : List Act) (msg : String) :
    ExecOutcome × ProcState σ × List Act :=
  let st := { st with status := .failed, completed_at := some env.now2,
                      error := some msg }
  let tr := tr ++ [Act.setFailed, Act.emitFailed]
  match env.emitFailedExn with
  | some m2 => (.raised m2, { st with input := unlockAll st.input },
                tr ++ [Act.unlockInputs])
  | none => (.ret false, { st with input := unlockAll st.input },
             tr ++ [Act.unlockInputs])

/-- The tail of `execute()` after `execute_impl` returned normally
(process.py lines 169-181): validate the outputs, mark completed, emit
the "completed" event (whose failure is caught by the same `except`),
unlock and return `True`. -/
def execSuccessTail (env : ExecEnv σ) (st1 : ProcState σ) (tr : List Act) :
    ExecOutcome × ProcState σ × List Act :=
  match validateAll st1.output with
  | .error e => exceptPath env st1 (tr ++ [Act.validateOutputs]) e.toMessage
  | .ok _ =>
    match env.emitCompletedExn with
    | some m =>
      exceptPath env { st1 with status := .completed, completed_at := some env.now2 }
        (tr ++ [Act.validateOutputs, Act.setCompleted, Act.emitCompleted]) m
    | none =>
      (.ret true,
        { st1 with status := .completed, completed_at := some env.now2,
                   input := unlockAll st1.input },
        tr ++ [Act.validateOutputs, Act.setCompleted, Act.emitCompleted] ++
          [Act.unlockInputs])

/-- The body of `execute()` after the "started" event (process.py lines
160-167): validate the inputs (a failure is caught by the shared handler),
lock them, run `execute_impl`. -/
def execAfterStart (env : ExecEnv σ) (st : ProcState σ) (tr : List Act) :
    ExecOutcome × ProcState σ × List Act :=
  match validateAll st.input with
  | .error e => exceptPath env st (tr ++ [Act.validateInputs]) e.toMessage
  | .ok _ =>
    match env.impl { st with input := lockAll st.input } with
    | (st1, some m) =>
      exceptPath env st1 (tr ++ [Act.validateInputs, Act.lockInputs, Act.runImpl]) m
    | (st1, none) =>
      execSuccessTail env st1 (tr ++ [Act.validateInputs, Act.lockInputs, Act.runImpl])

/-- `Process.execute` (process.py lines 139-199), the template method:
mark running, emit "started", validate and lock inputs, run
`execute_impl`, validate outputs, mark completed and emit "completed";
any exception raised inside the `try` goes through `exceptPath`. -/
def execute (env : ExecEnv σ) (st0 : ProcState σ) :
    ExecOutcome × ProcState σ × List Act :=
  match env.emitStartedExn with
  | some m =>
    exceptPath env { st0 with status := .running, started_at := some env.now1 }
      [Act.setRunning, Act.setStarted, Act.emitStarted] m
  | none =>
    execAfterStart env { st0 with status := .running, started_at := some env.now1 }
      [Act.setRunning, Act.setStarted, Act.emitStarted]

/-- The sequence of values assigned to `self.status` during one
`execute()` call, read off the lifecycle trace. -/
def statusWrites (tr : List Act) : List ProcessStatus :=
  tr.filterMap fun a =>
    match a with
    | .setRunning => some .running
    | .setCompleted => some .completed
    | .setFailed => some .failed
    | _ => none

/-- An `ExecEnv` describing normal operation: no locally registered event
handler raises at any of the three emit sites. -/
def quietEnv (impl : ProcState σ → ProcState σ × Option String)
    (n1 n2 : Nat) : ExecEnv σ :=
  { impl := impl, emitStartedExn := none, emitCompletedExn := none,
    emitFailedExn := none, now1 := n1, now2 := n2 }

/-! ### Orchestration — `OrchestratedProcess`, process.py lines 292-506 -/

/-- `ProcessExecutionFlags` (process.py lines 30-38). -/
inductive ProcessExecutionFlags
  | sequential
  | parallel
  deriving DecidableEq, Repr

/-- The loop body of `_group_processes` (process.py lines 487-506),
with the `groups` list and the `current_parallel_group` accumulator made
explicit.  A `SEQUENTIAL` entry flushes a non-empty accumulator and then
appends its own singleton group; a `PARALLEL` entry is appended to the
accumulator; a non-empty accumulator is flushed after the loop. -/
def groupLoop (groups : List (List α)) (acc : List α) :
    List (α × ProcessExecutionFlags) → List (List α)
  | [] => if acc.isEmpty then groups else groups ++ [acc]
  | (p, .sequential) :: rest =>
    if acc.isEmpty then groupLoop (groups ++ [[p]]) [] rest
    else groupLoop (groups ++ [acc, [p]]) [] rest
  | (p, .parallel) :: rest => groupLoop groups (acc ++ [p]) rest

/-- `OrchestratedProcess._group_processes` (process.py lines 463-506). -/
def group_processes (children : List (α × ProcessExecutionFlags)) : List (List α) :=
  groupLoop [] [] children

/-- Whether a (process, flag) pair is flagged `PARALLEL`. -/
def isPar : (α × ProcessExecutionFlags) → Bool
  | (_, .parallel) => true
  | (_, .sequential) => false

/-- The spec's description of grouping, written independently of the code:
split the children list into maximal runs — each `SEQUENTIAL` entry is a
singleton group, each maximal contiguous run of `PARALLEL` entries is one
group. -/
def specGroups : List (α × ProcessExecutionFlags) → List (List α)
  | [] => []
  | (p, .sequential) :: rest => [p] :: specGroups rest
  | (p, .parallel) :: rest =>
    (p :: (rest.takeWhile isPar).map Prod.fst) ::
      specGroups (rest.dropWhile isPar)
  termination_by l => l.length
  decreasing_by
    all_goals simp_wf
    all_goals first
      | omega
      | exact Nat.lt_succ_of_le (List.Sublist.length_le (List.dropWhile_sublist _))

/-- The pool of `Parameter` objects an orchestration's connections refer
to; a connection stores the two objects by reference, modelled here as
indices into the pool. -/
abbrev Heap := List Param

/-- The parameter used when an index misses the pool (never happens for
connections built by `_connect_param`, which stores live objects). -/
def dummyParam : Param :=
  { name := "", param_type := .complexT, required := false, value := none,
    locked := false, phase := .init }

/-- What one child process contributes to an orchestration run.  A child's
`execute()` never depends on anything but its own inputs, so it is modelled
by the net effect of its run on the parameter pool together with how the
call ends: normal success, a `False` return with its recorded `error`
message, or an escaped exception. -/
inductive ChildOutcome
  | ok
  | failedWith (err : String)
  | raisedExn (msg : String)
  deriving DecidableEq, Repr

/-- A child process as the orchestration loop observes it. -/
structure Child where
  name : String
  effect : Heap → Heap
  outcome : ChildOutcome

/-- The f-string of process.py lines 434-436 / 445-447 / 449-451:
the error an orchestration raises to blame a child. -/
def failMsg (name err : String) : String :=
  "Process '" ++ name ++ "' failed: " ++ err

/-- Dereference a connection endpoint in the parameter pool. -/
def heapGet (h : Heap) (i : Nat) : Param := h.getD i dummyParam

/-- One resolution copy (process.py lines 423-426 and 459-461): if the
source parameter's value is non-null, assign it to the target through the
normal `value` setter; a raise from the setter escapes the orchestration's
`execute_impl`. -/
def resolveOne (h : Heap) (c : Nat × Nat) : Except PErr Heap :=
  match (heapGet h c.1).value with
  | none => .ok h
  | some v =>
    let r := setValue (heapGet h c.2) (some v)
    match r.2 with
    | some e => .error e
    | none => .ok (h.set c.2 r.1)

/-- One full resolution pass over `_param_connections` in declaration
order (the `for source, target in param_connections` loops of
process.py lines 423-426 and 459-461). -/
def resolveConns (conns : List (Nat × Nat)) (h : Heap) : Except PErr Heap :=
  match conns with
  | [] => .ok h
  | c :: cs =>
    match resolveOne h c with
    | .error e => .error e
    | .ok h2 => resolveConns cs h2

/-- The observable steps of `execute_impl`'s group loop: one connection
resolution pass, or the execution of the group with a given index. -/
inductive OAct
  | resolveStep
  | groupStep (i : Nat)
  deriving DecidableEq, Repr

/-- The orchestration-specific state (`OrchestratedProcess.__init__`,
process.py lines 336-340): the children with their execution flags, the
declared parameter connections, the "already composed" flag, the shared
parameter pool the connections point into, and the log of observable
steps. -/
structure OrchSt where
  heap : Heap
  orchestration_defined : Bool
  children : List (Child × ProcessExecutionFlags)
  connections : List (Nat × Nat)
  log : List OAct

/-- Sequential application of the group members' effects.  Python runs a
multi-member group concurrently via `asyncio.gather`; the claims under
study do not depend on the interleaving, and distinct children write
distinct parameter objects (spec §5), so declaration order is used. -/
def applyEffects (h : Heap) : List Child → Heap
  | [] => h
  | c :: cs => applyEffects (c.effect h) cs

/-- The failure check of the parallel branch (process.py lines 442-451):
walk the zipped (process, result) list in declaration order; the first
member whose task ended in an exception, or which returned `False`, is
blamed with the wrapping f-string. -/
def scanFailures : List Child → Option String
  | [] => none
  | c :: cs =>
    match c.outcome with
    | .raisedExn m => some (failMsg c.name m)
    | .failedWith e => some (failMsg c.name e)
    | .ok => scanFailures cs

/-- How one execution group ends (process.py lines 428-451).  A
single-member group takes the sequential branch: a `False` return is
wrapped with the child's name, but an exception raised by the child's
`execute()` propagates as-is.  A multi-member group takes the gather
branch, where both kinds of failure are wrapped. -/
def groupFailureMsg : List Child → Option String
  | [c] =>
    match c.outcome with
    | .ok => none
    | .failedWith e => some (failMsg c.name e)
    | .raisedExn m => some m
  | g => scanFailures g

/-- Executing one group (process.py lines 428-451): all members run to
completion (`asyncio.gather` with `return_exceptions=True` waits for
everyone), then the first failure, if any, is raised. -/
def runGroup (h : Heap) (g : List Child) : Heap × Option String :=
  (applyEffects h g, groupFailureMsg g)

/-- The `for group_idx, group in enumerate(sequential_groups)` loop of
`execute_impl` (process.py lines 414-456): before each group one
resolution pass runs (a raise from it escapes), then the group executes;
a group failure is raised and ends the loop.  The two `_emit_event` calls
around each group go to the event bus, which swallows handler errors, and
`execute_impl` registers no local handlers, so they are not modelled as
raising. -/
def runGroupsLoop (conns : List (Nat × Nat)) :
    Nat → List (List Child) → OrchSt → OrchSt × Option String
  | _, [], st => (st, none)
  | i, g :: gs, st =>
    match resolveConns conns st.heap with
    | .error e => ({ st with log := st.log ++ [.resolveStep] }, some e.toMessage)
    | .ok h =>
      match (runGroup h g).2 with
      | some m =>
        ({ st with heap := (runGroup h g).1,
                   log := st.log ++ [.resolveStep] ++ [.groupStep i] }, some m)
      | none =>
        runGroupsLoop conns (i + 1) gs
          { st with heap := (runGroup h g).1,
                    log := st.log ++ [.resolveStep] ++ [.groupStep i] }

/-- The composition guard of `execute_impl` (process.py lines 402-405):
`orchestrate()` — an arbitrary subclass routine, modelled as a state
transformer — runs only when the "already composed" flag is unset, and
the flag is set right after it. -/
def composePhase (orch : OrchSt → OrchSt) (st : OrchSt) : OrchSt :=
  if st.orchestration_defined then st
  else { orch st with orchestration_defined := true }

/-- `OrchestratedProcess.execute_impl` (process.py lines 390-461):
compose if needed, group the children, run the group loop, and — only
when every group succeeded — run one final resolution pass. -/
def orchImpl (orch : OrchSt → OrchSt) (st0 : OrchSt) : OrchSt × Option String :=
  match runGroupsLoop (composePhase orch st0).connections 0
      (group_processes (composePhase orch st0).children) (composePhase orch st0) with
  | (st1, some m) => (st1, some m)
  | (st1, none) =>
    match resolveConns (composePhase orch st0).connections st1.heap with
    | .error e => ({ st1 with log := st1.log ++ [.resolveStep] }, some e.toMessage)
    | .ok h => ({ st1 with heap := h, log := st1.log ++ [.resolveStep] }, none)

/-- `execute_impl` as the `impl` hook of the template method: it reads and
writes only the orchestration-specific state. -/
def orchWrap (orch : OrchSt → OrchSt) (ps : ProcState OrchSt) :
    ProcState OrchSt × Option String :=
  let r := orchImpl orch ps.extra
  ({ ps with extra := r.1 }, r.2)

/-! ### Grouping: the code's accumulator loop equals run-length grouping -/

theorem group_processes_def (cs : List (α × ProcessExecutionFlags)) :
    group_processes cs = groupLoop [] [] cs := rfl

theorem specGroups_nil : specGroups ([] : List (α × ProcessExecutionFlags)) = [] := by
  simp [specGroups]

theorem specGroups_seq (p : α) (rest : List (α × ProcessExecutionFlags)) :
    specGroups ((p, ProcessExecutionFlags.sequential) :: rest) =
      [p] :: specGroups rest := by
  simp [specGroups]

theorem specGroups_par (p : α) (rest : List (α × ProcessExecutionFlags)) :
    specGroups ((p, ProcessExecutionFlags.parallel) :: rest) =
      (p :: (rest.takeWhile isPar).map Prod.fst) ::
        specGroups (rest.dropWhile isPar) := by
  simp [specGroups]

theorem groupLoop_append (cs : List (α × ProcessExecutionFlags)) :
    ∀ (groups : List (List α)) (acc : List α),
      groupLoop groups acc cs = groups ++ groupLoop [] acc cs := by
  induction cs with
  | nil =>
    intro groups acc
    simp only [groupLoop]
    split <;> simp
  | cons c rest ih =>
    intro groups acc
    obtain ⟨p, f⟩ := c
    cases f with
    | sequential =>
      simp only [groupLoop]
      by_cases h : acc.isEmpty
      · rw [if_pos h, if_pos h, ih (groups ++ [[p]]) [], List.nil_append,
          ih [[p]] [], List.append_assoc]
      · rw [if_neg h, if_neg h, ih (groups ++ [acc, [p]]) [], List.nil_append,
          ih [acc, [p]] [], List.append_assoc]
    | parallel =>
      simp only [groupLoop]
      exact ih groups (acc ++ [p])

theorem nonempty_isEmpty_false {pref : List α} (hpref : pref ≠ []) :
    pref.isEmpty = false := by
  cases pref with
  | nil => exact absurd rfl hpref
  | cons a l => rfl

theorem groupLoop_spec (n : Nat) :
    ∀ (cs : List (α × ProcessExecutionFlags)), cs.length ≤ n →
      group_processes cs = specGroups cs ∧
      ∀ pref : List α, pref ≠ [] →
        groupLoop [] pref cs =
          (pref ++ (cs.takeWhile isPar).map Prod.fst) ::
            specGroups (cs.dropWhile isPar) := by
  induction n with
  | zero =>
    intro cs hlen
    have hcs : cs = [] := List.eq_nil_of_length_eq_zero (Nat.le_zero.mp hlen)
    subst hcs
    refine ⟨by simp [group_processes_def, groupLoop, specGroups_nil],
      fun pref hpref => ?_⟩
    simp [groupLoop, specGroups_nil, nonempty_isEmpty_false hpref]
  | succ n ih =>
    intro cs hlen
    match cs with
    | [] =>
      refine ⟨by simp [group_processes_def, groupLoop, specGroups_nil],
        fun pref hpref => ?_⟩
      simp [groupLoop, specGroups_nil, nonempty_isEmpty_false hpref]
    | (p, .sequential) :: rest =>
      have hrest : rest.length ≤ n := by
        simp only [List.length_cons] at hlen
        omega
      constructor
      · rw [group_processes_def]
        simp only [groupLoop, List.isEmpty_nil, if_true, List.nil_append]
        rw [groupLoop_append rest [[p]] [], ← group_processes_def,
          (ih rest hrest).1, specGroups_seq]
        simp
      · intro pref hpref
        simp only [groupLoop, nonempty_isEmpty_false hpref, if_false,
          Bool.false_eq_true, List.nil_append]
        rw [groupLoop_append rest [pref, [p]] [], ← group_processes_def,
          (ih rest hrest).1]
        simp [List.takeWhile_cons, List.dropWhile_cons, isPar, specGroups_seq]
    | (p, .parallel) :: rest =>
      have hrest : rest.length ≤ n := by
        simp only [List.length_cons] at hlen
        omega
      constructor
      · rw [group_processes_def]
        simp only [groupLoop, List.nil_append]
        rw [(ih rest hrest).2 [p] (by simp)]
        simp [specGroups_par]
      · intro pref hpref
        simp only [groupLoop]
        rw [(ih rest hrest).2 (pref ++ [p]) (by simp)]
        simp [List.takeWhile_cons, List.dropWhile_cons, isPar, List.append_assoc]

/-- C2: grouping is the single linear run-length pass the claim describes —
the code's accumulator loop agrees with independent maximal-run grouping on
every children list, and the concrete five-child example produces
`[[p1], [p2], [p3, p4], [p5]]`. -/
theorem c2_grouping_runlength :
    (∀ (α : Type) (cs : List (α × ProcessExecutionFlags)),
        group_processes cs = specGroups cs) ∧
      group_processes
          [(1, ProcessExecutionFlags.sequential), (2, .sequential),
            (3, .parallel), (4, .parallel), (5, .sequential)] =
        [[1], [2], [3, 4], [5]] := by
  constructor
  · intro α cs
    exact (groupLoop_spec cs.length cs le_rfl).1
  · decide

/-! ### Parameter-level claims -/

/-- C8: writing a value that fails the declared-type check to an unlocked
Parameter raises `TypeMismatchError` and leaves the stored value — indeed
the whole parameter — unchanged: the returned receiver is `p` itself,
because the source assigns `self._value` only after the check passes.
`validate_type p (some v) = false` is exactly the claim's premise: for a
plain class, `v` is not an instance of it; for a generic alias, `v` is not
an instance of the outer container kind (element types are never
inspected); the fallback branch for other type descriptors accepts
everything and so can never produce `false`. -/
theorem c8_type_mismatch_write_atomic (p : Param) (v : Val)
    (hunlocked : p.locked = false)
    (hbad : validate_type p (some v) = false) :
    setValue p (some v) = (p, some (PErr.typeMismatch p.name)) := by
  simp [setValue, hunlocked, hbad]

/-- A parameter declared `int` with a stored value, used to exercise the
type-mismatch branch of the setter. -/
def intParam : Param :=
  { name := "a", param_type := .simple .intC, required := true,
    value := some (.vInt 7), locked := false, phase := .init }

/-- Witness for C8: writing a string into the unlocked int-typed `intParam`
fails with `TypeMismatchError` and returns the parameter unchanged, its
stored value still `7`. -/
theorem c8_witness :
    setValue intParam (some (.vStr "x")) =
        (intParam, some (PErr.typeMismatch "a")) ∧
      intParam.value = some (.vInt 7) :=
  ⟨c8_type_mismatch_write_atomic intParam (.vStr "x") rfl rfl, rfl⟩

/-- A lock/unlock history applied to a Parameter, as performed by
`lock_all`/`unlock_all` across any number of executions of the owning
process. -/
inductive LockOp
  | lockStep
  | unlockStep

/-- Apply a sequence of `lock()`/`unlock()` calls to a parameter. -/
def applyLockOps : Param → List LockOp → Param
  | p, [] => p
  | p, .lockStep :: ops => applyLockOps (lock p) ops
  | p, .unlockStep :: ops => applyLockOps (unlock p) ops

/-- C10: `unlock()` only clears the locked flag (in particular it never
reverts `phase`), `lock()` is the operation that sets `phase` to RUNTIME,
the value setter never touches `phase`, and once `phase` is RUNTIME it
stays RUNTIME across any further sequence of `lock()`/`unlock()` calls. -/
theorem c10_phase_never_reverts :
    (∀ p : Param, unlock p = { p with locked := false }) ∧
    (∀ p : Param, (lock p).phase = .runtime) ∧
    (∀ (p : Param) (v : Option Val), ((setValue p v).1).phase = p.phase) ∧
    (∀ (p : Param) (ops : List LockOp), p.phase = .runtime →
      (applyLockOps p ops).phase = .runtime) := by
  refine ⟨fun p => rfl, fun p => rfl, ?_, ?_⟩
  · intro p v
    simp only [setValue]
    split
    · rfl
    · split
      · rfl
      · split
        · rfl
        · rfl
  · intro p ops h
    induction ops generalizing p with
    | nil => exact h
    | cons op rest ih =>
      cases op with
      | lockStep => exact ih (lock p) rfl
      | unlockStep => exact ih (unlock p) h

/-- Witness for C10: a parameter locked once (phase RUNTIME) keeps phase
RUNTIME through unlock, a second lock/unlock cycle, and a further unlock. -/
theorem c10_witness :
    (applyLockOps (lock dummyParam)
        [.unlockStep, .lockStep, .unlockStep, .unlockStep]).phase =
      ParameterPhase.runtime :=
  c10_phase_never_reverts.2.2.2 (lock dummyParam)
    [.unlockStep, .lockStep, .unlockStep, .unlockStep] rfl

/-! ### C1: connection-resolution copies go through the ordinary setter -/

/-- A connection source holding the value `5`. -/
def resSource : Param :=
  { name := "s", param_type := .simple .intC, required := true,
    value := some (.vInt 5), locked := false, phase := .init }

/-- A connection target that is locked at resolution time. -/
def resTarget : Param :=
  { name := "t", param_type := .simple .intC, required := true,
    value := none, locked := true, phase := .runtime }

/-- An unlocked connection target of matching type. -/
def resTargetFree : Param :=
  { name := "u", param_type := .simple .intC, required := true,
    value := none, locked := false, phase := .init }

/-- Pool for the locked-target scenario: source at 0, locked target at 1. -/
def lockedPairHeap : Heap := [resSource, resTarget]

/-- Pool for the unlocked-target scenario: source at 0, free target at 1. -/
def freePairHeap : Heap := [resSource, resTargetFree]

/-- C1 counterexample: a resolution copy whose source value is non-null
and whose target is locked at that moment does NOT succeed — the copy uses
the ordinary `value` setter, so the `LockedError` branch IS taken
(process.py line 426 assigns `target.value`, and the setter at
parameters.py lines 64-65 raises for a locked parameter). -/
theorem c1_counterexample :
    (heapGet lockedPairHeap 0).value ≠ none ∧
    (heapGet lockedPairHeap 1).locked = true ∧
    resolveOne lockedPairHeap (0, 1) = .error (PErr.locked "t") := by
  refine ⟨?_, rfl, rfl⟩
  simp [heapGet, lockedPairHeap, resSource]

/-- C1 amended: the connection-resolution copy goes through the normal
locked-check path of the `value` setter.  With a non-null source value it
raises `LockedError` when the target is locked at that moment, and
succeeds (storing the source value in the target) when the target is
unlocked and the value passes the target's type check. -/
theorem c1_resolution_copy_uses_setter (h : Heap) (s t : Nat) (v : Val)
    (hsrc : (heapGet h s).value = some v) :
    ((heapGet h t).locked = true →
      resolveOne h (s, t) = .error (.locked (heapGet h t).name)) ∧
    ((heapGet h t).locked = false →
      validate_type (heapGet h t) (some v) = true →
      resolveOne h (s, t) =
        .ok (h.set t { heapGet h t with value := some v })) := by
  constructor
  · intro hl
    simp [resolveOne, hsrc, setValue, hl]
  · intro hl hty
    simp [resolveOne, hsrc, setValue, hl, hty]

/-- Witness for the amended C1: on the locked pool the copy raises
`LockedError`; on the unlocked pool the copy succeeds and stores `5` in
the target. -/
theorem c1_witness :
    resolveOne lockedPairHeap (0, 1) =
        .error (.locked (heapGet lockedPairHeap 1).name) ∧
      resolveOne freePairHeap (0, 1) =
        .ok (freePairHeap.set 1
          { heapGet freePairHeap 1 with value := some (Val.vInt 5) }) :=
  ⟨(c1_resolution_copy_uses_setter lockedPairHeap 0 1 (Val.vInt 5) rfl).1 rfl,
    (c1_resolution_copy_uses_setter freePairHeap 0 1 (Val.vInt 5) rfl).2 rfl rfl⟩

/-! ### Lifecycle claims: helper lemmas about the handler path -/

theorem exceptPath_ret (env : ExecEnv σ) (st : ProcState σ) (tr : List Act)
    (m : String) (hq : env.emitFailedExn = none) :
    exceptPath env st tr m =
      (.ret false,
        { status := .failed, started_at := st.started_at,
          completed_at := some env.now2, error := some m,
          input := unlockAll st.input, output := st.output, extra := st.extra },
        tr ++ [Act.setFailed, Act.emitFailed] ++ [Act.unlockInputs]) := by
  unfold exceptPath
  rw [hq]

theorem exceptPath_trace (env : ExecEnv σ) (st : ProcState σ) (tr : List Act)
    (m : String) :
    (exceptPath env st tr m).2.2 =
      tr ++ [Act.setFailed, Act.emitFailed] ++ [Act.unlockInputs] := by
  unfold exceptPath
  cases env.emitFailedExn <;> rfl

theorem exceptPath_status (env : ExecEnv σ) (st : ProcState σ) (tr : List Act)
    (m : String) : (exceptPath env st tr m).2.1.status = .failed := by
  unfold exceptPath
  cases env.emitFailedExn <;> rfl

theorem exceptPath_error (env : ExecEnv σ) (st : ProcState σ) (tr : List Act)
    (m : String) : (exceptPath env st tr m).2.1.error = some m := by
  unfold exceptPath
  cases env.emitFailedExn <;> rfl

/-! ### C3: does any exception escape `execute()`? -/

/-- An environment in which `execute_impl` raises and a locally registered
"failed" event handler raises as well (`Process.on` allows registering
such handlers, and `_emit_event` awaits them unprotected). -/
def crashingFailEnv : ExecEnv Unit :=
  { impl := fun st => (st, some "boom"), emitStartedExn := none,
    emitCompletedExn := none, emitFailedExn := some "failed handler crashed",
    now1 := 0, now2 := 1 }

/-- C3 counterexample: when the implementation fails and the "failed"
event emission itself raises, the exception escapes `execute()` — the
`await self._emit_event("failed", ...)` at process.py line 193 sits inside
the `except` block, so a raise from a local handler there is not caught.
The status is still FAILED at that point. -/
theorem c3_counterexample :
    (execute crashingFailEnv (initProc [] [] ())).1 =
        .raised "failed handler crashed" ∧
      (execute crashingFailEnv (initProc [] [] ())).2.1.status = .failed :=
  ⟨rfl, rfl⟩

theorem execSuccessTail_ret (env : ExecEnv σ) (st1 : ProcState σ) (tr : List Act)
    (hq : env.emitFailedExn = none) :
    ∃ b st2 tr2, execSuccessTail env st1 tr = (.ret b, st2, tr2) ∧
      (b = true ↔ st2.status = .completed) ∧
      (b = false ↔ st2.status = .failed) ∧
      (b = false → ∃ m, st2.error = some m) := by
  unfold execSuccessTail
  cases hvo : validateAll st1.output with
  | error e =>
    exact ⟨false, _, _, exceptPath_ret env _ _ _ hq, by simp, by simp,
      fun _ => ⟨e.toMessage, rfl⟩⟩
  | ok b =>
    cases hec : env.emitCompletedExn with
    | some m =>
      exact ⟨false, _, _, exceptPath_ret env _ _ _ hq, by simp, by simp,
        fun _ => ⟨m, rfl⟩⟩
    | none =>
      exact ⟨true, _, _, rfl, by simp, by simp, fun h => by cases h⟩

theorem execAfterStart_ret (env : ExecEnv σ) (st : ProcState σ) (tr : List Act)
    (hq : env.emitFailedExn = none) :
    ∃ b st2 tr2, execAfterStart env st tr = (.ret b, st2, tr2) ∧
      (b = true ↔ st2.status = .completed) ∧
      (b = false ↔ st2.status = .failed) ∧
      (b = false → ∃ m, st2.error = some m) := by
  unfold execAfterStart
  cases hvi : validateAll st.input with
  | error e =>
    exact ⟨false, _, _, exceptPath_ret env _ _ _ hq, by simp, by simp,
      fun _ => ⟨e.toMessage, rfl⟩⟩
  | ok b =>
    rcases himpl : env.impl { st with input := lockAll st.input } with ⟨st1, r⟩
    cases r with
    | some m =>
      exact ⟨false, _, _, exceptPath_ret env _ _ _ hq, by simp, by simp,
        fun _ => ⟨m, rfl⟩⟩
    | none => exact execSuccessTail_ret env st1 _ hq

/-- C3 amended: provided the "failed" event emission itself does not
raise, `execute()` never raises — it returns a boolean, returning `True`
exactly when the run ended COMPLETED and `False` exactly when it ended
FAILED, with `error` set in the `False` case; an exception raised while
emitting the "failed" event escapes `execute()` (see the
counterexample). -/
theorem c3_no_escape_when_failed_emit_quiet {σ : Type} (env : ExecEnv σ)
    (st : ProcState σ) (hq : env.emitFailedExn = none) :
    ∃ b st2 tr, execute env st = (.ret b, st2, tr) ∧
      (b = true ↔ st2.status = .completed) ∧
      (b = false ↔ st2.status = .failed) ∧
      (b = false → ∃ m, st2.error = some m) := by
  unfold execute
  cases hes : env.emitStartedExn with
  | some m =>
    exact ⟨false, _, _, exceptPath_ret env _ _ _ hq, by simp, by simp,
      fun _ => ⟨m, rfl⟩⟩
  | none => exact execAfterStart_ret env _ _ hq

/-- Witness for the amended C3: with a quiet "failed" emission, a failing
implementation still makes `execute()` return a boolean that matches the
terminal status, rather than raise. -/
theorem c3_witness :
    ∃ b st2 tr,
      execute (quietEnv (fun st : ProcState Unit => (st, some "boom")) 0 1)
        (initProc [] [] ()) = (.ret b, st2, tr) ∧
      (b = true ↔ st2.status = .completed) ∧
      (b = false ↔ st2.status = .failed) ∧
      (b = false → ∃ m, st2.error = some m) :=
  c3_no_escape_when_failed_emit_quiet
    (quietEnv (fun st : ProcState Unit => (st, some "boom")) 0 1)
    (initProc [] [] ()) rfl

/-! ### C6: the status write sequence of one execution -/

theorem statusWrites_append (a b : List Act) :
    statusWrites (a ++ b) = statusWrites a ++ statusWrites b := by
  simp [statusWrites, List.filterMap_append]

theorem succTail_statusWrites (env : ExecEnv σ) (st1 : ProcState σ) (tr : List Act) :
    statusWrites (execSuccessTail env st1 tr).2.2 = statusWrites tr ++ [.failed] ∨
    statusWrites (execSuccessTail env st1 tr).2.2 =
      statusWrites tr ++ [.completed, .failed] ∨
    statusWrites (execSuccessTail env st1 tr).2.2 = statusWrites tr ++ [.completed] := by
  unfold execSuccessTail
  cases hvo : validateAll st1.output with
  | error e =>
    left
    simp [exceptPath_trace, statusWrites, List.filterMap_append]
  | ok b =>
    cases hec : env.emitCompletedExn with
    | some m =>
      right; left
      simp [exceptPath_trace, statusWrites, List.filterMap_append]
    | none =>
      right; right
      simp [statusWrites, List.filterMap_append]

theorem succTail_statusWrites_quiet (env : ExecEnv σ) (st1 : ProcState σ)
    (tr : List Act) (hec : env.emitCompletedExn = none) :
    statusWrites (execSuccessTail env st1 tr).2.2 = statusWrites tr ++ [.failed] ∨
    statusWrites (execSuccessTail env st1 tr).2.2 = statusWrites tr ++ [.completed] := by
  unfold execSuccessTail
  cases hvo : validateAll st1.output with
  | error e =>
    left
    simp [exceptPath_trace, statusWrites, List.filterMap_append]
  | ok b =>
    rw [hec]
    right
    simp [statusWrites, List.filterMap_append]

theorem afterStart_statusWrites (env : ExecEnv σ) (st : ProcState σ) (tr : List Act) :
    statusWrites (execAfterStart env st tr).2.2 = statusWrites tr ++ [.failed] ∨
    statusWrites (execAfterStart env st tr).2.2 =
      statusWrites tr ++ [.completed, .failed] ∨
    statusWrites (execAfterStart env st tr).2.2 = statusWrites tr ++ [.completed] := by
  unfold execAfterStart
  cases hvi : validateAll st.input with
  | error e =>
    left
    simp [exceptPath_trace, statusWrites, List.filterMap_append]
  | ok b =>
    rcases himpl : env.impl { st with input := lockAll st.input } with ⟨st1, r⟩
    cases r with
    | some m =>
      left
      simp [exceptPath_trace, statusWrites, List.filterMap_append]
    | none =>
      have h := succTail_statusWrites env st1
        (tr ++ [Act.validateInputs, Act.lockInputs, Act.runImpl])
      simpa [statusWrites_append, statusWrites] using h

theorem afterStart_statusWrites_quiet (env : ExecEnv σ) (st : ProcState σ)
    (tr : List Act) (hec : env.emitCompletedExn = none) :
    statusWrites (execAfterStart env st tr).2.2 = statusWrites tr ++ [.failed] ∨
    statusWrites (execAfterStart env st tr).2.2 = statusWrites tr ++ [.completed] := by
  unfold execAfterStart
  cases hvi : validateAll st.input with
  | error e =>
    left
    simp [exceptPath_trace, statusWrites, List.filterMap_append]
  | ok b =>
    rcases himpl : env.impl { st with input := lockAll st.input } with ⟨st1, r⟩
    cases r with
    | some m =>
      left
      simp [exceptPath_trace, statusWrites, List.filterMap_append]
    | none =>
      have h := succTail_statusWrites_quiet env st1
        (tr ++ [Act.validateInputs, Act.lockInputs, Act.runImpl]) hec
      simpa [statusWrites_append, statusWrites] using h

theorem execute_statusWrites (env : ExecEnv σ) (st : ProcState σ) :
    statusWrites (execute env st).2.2 = [.running, .failed] ∨
    statusWrites (execute env st).2.2 = [.running, .completed, .failed] ∨
    statusWrites (execute env st).2.2 = [.running, .completed] := by
  unfold execute
  cases hes : env.emitStartedExn with
  | some m =>
    left
    simp [exceptPath_trace, statusWrites, List.filterMap_append]
  | none =>
    have h := afterStart_statusWrites env
      { st with status := .running, started_at := some env.now1 }
      [Act.setRunning, Act.setStarted, Act.emitStarted]
    rcases h with h | h | h
    · left; rw [h]; rfl
    · right; left; rw [h]; rfl
    · right; right; rw [h]; rfl

theorem execute_statusWrites_quiet (env : ExecEnv σ) (st : ProcState σ)
    (hec : env.emitCompletedExn = none) :
    statusWrites (execute env st).2.2 = [.running, .failed] ∨
    statusWrites (execute env st).2.2 = [.running, .completed] := by
  unfold execute
  cases hes : env.emitStartedExn with
  | some m =>
    left
    simp [exceptPath_trace, statusWrites, List.filterMap_append]
  | none =>
    have h := afterStart_statusWrites_quiet env
      { st with status := .running, started_at := some env.now1 }
      [Act.setRunning, Act.setStarted, Act.emitStarted] hec
    rcases h with h | h
    · left; rw [h]; rfl
    · right; rw [h]; rfl

/-- An environment whose implementation succeeds but where a locally
registered "completed" event handler raises. -/
def lateCrashEnv : ExecEnv Unit :=
  { impl := fun st => (st, none), emitStartedExn := none,
    emitCompletedExn := some "completed handler crashed",
    emitFailedExn := none, now1 := 0, now2 := 1 }

/-- C6 counterexample: when the "completed" event emission raises, the
execution assigns RUNNING, then COMPLETED (process.py line 173), and then
the `except` handler assigns FAILED (line 185) — the run sets both
terminal statuses, a COMPLETED→FAILED transition outside the claimed
PENDING→RUNNING→{COMPLETED, FAILED} chain. -/
theorem c6_counterexample :
    statusWrites (execute lateCrashEnv (initProc [] [] ())).2.2 =
        [.running, .completed, .failed] ∧
      (execute lateCrashEnv (initProc [] [] ())).2.1.status = .failed :=
  ⟨rfl, rfl⟩

/-- C6 amended: `status` starts PENDING at construction; every execution
writes RUNNING and then either COMPLETED, or FAILED, or — only when the
"completed" event emission raises after COMPLETED was already assigned —
COMPLETED followed by FAILED; CANCELLED is never assigned by the engine.
When the "completed" emission does not raise, the write sequence is
exactly RUNNING then one of COMPLETED or FAILED. -/
theorem c6_status_transitions :
    (∀ (σ : Type) (inp out : ParamList) (x : σ),
      (initProc inp out x).status = .pending) ∧
    (∀ (σ : Type) (env : ExecEnv σ) (st : ProcState σ),
      statusWrites (execute env st).2.2 = [.running, .completed] ∨
      statusWrites (execute env st).2.2 = [.running, .failed] ∨
      statusWrites (execute env st).2.2 = [.running, .completed, .failed]) ∧
    (∀ (σ : Type) (env : ExecEnv σ) (st : ProcState σ),
      ProcessStatus.cancelled ∉ statusWrites (execute env st).2.2) ∧
    (∀ (σ : Type) (env : ExecEnv σ) (st : ProcState σ),
      env.emitCompletedExn = none →
        statusWrites (execute env st).2.2 = [.running, .completed] ∨
        statusWrites (execute env st).2.2 = [.running, .failed]) := by
  refine ⟨fun σ inp out x => rfl, ?_, ?_, ?_⟩
  · intro σ env st
    rcases execute_statusWrites env st with h | h | h
    · right; left; exact h
    · right; right; exact h
    · left; exact h
  · intro σ env st
    rcases execute_statusWrites env st with h | h | h <;> rw [h] <;> decide
  · intro σ env st hec
    rcases execute_statusWrites_quiet env st hec with h | h
    · right; exact h
    · left; exact h

/-- Witness for C6: a quiet successful execution writes RUNNING then
exactly one terminal status. -/
theorem c6_witness :
    statusWrites (execute (quietEnv (fun st : ProcState Unit => (st, none)) 0 1)
        (initProc [] [] ())).2.2 = [.running, .completed] ∨
      statusWrites (execute (quietEnv (fun st : ProcState Unit => (st, none)) 0 1)
        (initProc [] [] ())).2.2 = [.running, .failed] :=
  c6_status_transitions.2.2.2 Unit
    (quietEnv (fun st : ProcState Unit => (st, none)) 0 1) (initProc [] [] ()) rfl

/-! ### C7: a missing required input fails after RUNNING is set -/

theorem validate_error_form (q : Param) (e : PErr) (h : validate q = .error e) :
    e = .missingRequired q.name := by
  unfold validate at h
  split at h
  · cases h; rfl
  · cases h

theorem validateAll_error_of_missing (l : ParamList)
    (hmiss : ∃ p ∈ l, p.required = true ∧ p.value = none) :
    ∃ nm, validateAll l = .error (.missingRequired nm) := by
  induction l with
  | nil =>
    obtain ⟨p, hp, _⟩ := hmiss
    cases hp
  | cons q rest ih =>
    obtain ⟨p, hp, hreq, hval⟩ := hmiss
    cases hq : validate q with
    | error e =>
      refine ⟨q.name, ?_⟩
      rw [validate_error_form q e hq] at hq
      simp [validateAll, hq]
    | ok b =>
      rcases List.mem_cons.mp hp with h | h
      · subst h
        exfalso
        unfold validate at hq
        rw [if_pos] at hq
        · cases hq
        · simp [hreq, hval]
      · obtain ⟨nm, hrest⟩ := ih ⟨p, h, hreq, hval⟩
        refine ⟨nm, ?_⟩
        simp [validateAll, hq, hrest]

/-- C7: with a required input unset (and no event handler raising),
`execute()` assigns RUNNING and `started_at` *before* input validation
runs, the validation failure is caught by the same handler as execution
failures, and `execute()` returns `False` with status FAILED and `error`
set — the full lifecycle trace is `setRunning, setStarted, emitStarted,
validateInputs, setFailed, emitFailed, unlockInputs`; in particular the
implementation step never runs and nothing is raised or short-circuited
before RUNNING. -/
theorem c7_running_precedes_validation {σ : Type}
    (impl : ProcState σ → ProcState σ × Option String) (n1 n2 : Nat)
    (st : ProcState σ)
    (hmiss : ∃ p ∈ st.input, p.required = true ∧ p.value = none) :
    ∃ nm st2,
      execute (quietEnv impl n1 n2) st =
        (.ret false, st2,
          [Act.setRunning, Act.setStarted, Act.emitStarted, Act.validateInputs,
            Act.setFailed, Act.emitFailed, Act.unlockInputs]) ∧
      st2.status = .failed ∧
      st2.error = some (PErr.missingRequired nm).toMessage ∧
      st2.started_at = some n1 := by
  obtain ⟨nm, hv⟩ := validateAll_error_of_missing st.input hmiss
  have h2 : execute (quietEnv impl n1 n2) st =
      exceptPath (quietEnv impl n1 n2)
        { st with status := .running, started_at := some n1 }
        ([Act.setRunning, Act.setStarted, Act.emitStarted] ++ [Act.validateInputs])
        (PErr.missingRequired nm).toMessage := by
    show execAfterStart (quietEnv impl n1 n2)
        { st with status := .running, started_at := some n1 }
        [Act.setRunning, Act.setStarted, Act.emitStarted] = _
    unfold execAfterStart
    dsimp only
    rw [hv]
  rw [h2, exceptPath_ret _ _ _ _ rfl]
  exact ⟨nm, _, rfl, rfl, rfl, rfl⟩

/-- A required input parameter with no value. -/
def missingParam : Param :=
  { name := "need", param_type := .simple .intC, required := true,
    value := none, locked := false, phase := .init }

/-- Witness for C7 on a concrete process whose only input is a required,
unset parameter. -/
theorem c7_witness :
    ∃ nm st2,
      execute (quietEnv (fun s : ProcState Unit => (s, none)) 3 4)
        (initProc [missingParam] [] ()) =
          (.ret false, st2,
            [Act.setRunning, Act.setStarted, Act.emitStarted, Act.validateInputs,
              Act.setFailed, Act.emitFailed, Act.unlockInputs]) ∧
        st2.status = .failed ∧
        st2.error = some (PErr.missingRequired nm).toMessage ∧
        st2.started_at = some 3 :=
  c7_running_precedes_validation (fun s : ProcState Unit => (s, none)) 3 4
    (initProc [missingParam] [] ()) ⟨missingParam, by simp [initProc], rfl, rfl⟩

/-! ### C9: composition runs at most once -/

theorem composePhase_of_defined (f : OrchSt → OrchSt) (st : OrchSt)
    (h : st.orchestration_defined = true) : composePhase f st = st := by
  simp [composePhase, h]

theorem composePhase_defined (f : OrchSt → OrchSt) (st : OrchSt) :
    (composePhase f st).orchestration_defined = true := by
  unfold composePhase
  split
  · assumption
  · rfl

theorem runGroupsLoop_frame (conns : List (Nat × Nat)) :
    ∀ (gs : List (List Child)) (i : Nat) (st : OrchSt),
      (runGroupsLoop conns i gs st).1.children = st.children ∧
      (runGroupsLoop conns i gs st).1.connections = st.connections ∧
      (runGroupsLoop conns i gs st).1.orchestration_defined =
        st.orchestration_defined := by
  intro gs
  induction gs with
  | nil => intro i st; exact ⟨rfl, rfl, rfl⟩
  | cons g rest ih =>
    intro i st
    unfold runGroupsLoop
    cases hres : resolveConns conns st.heap with
    | error e => exact ⟨rfl, rfl, rfl⟩
    | ok h =>
      dsimp only
      cases hg : (runGroup h g).2 with
      | some m => exact ⟨rfl, rfl, rfl⟩
      | none =>
        exact ih (i + 1)
          { st with heap := (runGroup h g).1,
                    log := st.log ++ [.resolveStep] ++ [.groupStep i] }

theorem orchImpl_frame (f : OrchSt → OrchSt) (st : OrchSt) :
    (orchImpl f st).1.children = (composePhase f st).children ∧
    (orchImpl f st).1.connections = (composePhase f st).connections ∧
    (orchImpl f st).1.orchestration_defined = true := by
  unfold orchImpl
  rcases hloop : runGroupsLoop (composePhase f st).connections 0
      (group_processes (composePhase f st).children) (composePhase f st)
    with ⟨st1, r⟩
  have hfr := runGroupsLoop_frame (composePhase f st).connections
    (group_processes (composePhase f st).children) 0 (composePhase f st)
  rw [hloop] at hfr
  have hdef := composePhase_defined f st
  cases r with
  | some m =>
    dsimp only
    exact ⟨hfr.1, hfr.2.1, by rw [hfr.2.2]; exact hdef⟩
  | none =>
    dsimp only
    cases hres : resolveConns (composePhase f st).connections st1.heap with
    | error e => exact ⟨hfr.1, hfr.2.1, by rw [hfr.2.2]; exact hdef⟩
    | ok h => exact ⟨hfr.1, hfr.2.1, by rw [hfr.2.2]; exact hdef⟩

/-- C9: `orchestrate()` is guarded by the "already composed" flag — on a
state whose flag is set, composition is a no-op; any run of
`execute_impl` leaves the flag set; and re-running `execute_impl` on the
state produced by a previous run changes neither the children list nor
the connections list (in particular their lengths). -/
theorem c9_compose_at_most_once :
    (∀ (f : OrchSt → OrchSt) (st : OrchSt),
      composePhase f { st with orchestration_defined := true } =
        { st with orchestration_defined := true }) ∧
    (∀ (f : OrchSt → OrchSt) (st : OrchSt),
      (composePhase f st).orchestration_defined = true) ∧
    (∀ (f : OrchSt → OrchSt) (st : OrchSt),
      (orchImpl f st).1.orchestration_defined = true ∧
      (orchImpl f (orchImpl f st).1).1.children = (orchImpl f st).1.children ∧
      (orchImpl f (orchImpl f st).1).1.connections =
        (orchImpl f st).1.connections ∧
      (orchImpl f (orchImpl f st).1).1.children.length =
        (orchImpl f st).1.children.length ∧
      (orchImpl f (orchImpl f st).1).1.connections.length =
        (orchImpl f st).1.connections.length) := by
  refine ⟨fun f st => composePhase_of_defined f _ rfl, composePhase_defined, ?_⟩
  intro f st
  have h1 := orchImpl_frame f st
  have h2 := orchImpl_frame f (orchImpl f st).1
  have hcp : composePhase f (orchImpl f st).1 = (orchImpl f st).1 :=
    composePhase_of_defined f _ h1.2.2
  rw [hcp] at h2
  exact ⟨h1.2.2, h2.1, h2.2.1, by rw [h2.1], by rw [h2.2.1]⟩

/-! ### C5 and C4: the schedule of resolution passes and group runs -/

/-- The log an execution writes while running the groups with the given
indices: one resolution pass immediately before each group. -/
def stepPattern : List Nat → List OAct
  | [] => []
  | j :: js => OAct.resolveStep :: OAct.groupStep j :: stepPattern js

/-- Number of resolution passes recorded in a log. -/
def countResolves : List OAct → Nat
  | [] => 0
  | .resolveStep :: l => countResolves l + 1
  | .groupStep _ :: l => countResolves l

theorem countResolves_append (a b : List OAct) :
    countResolves (a ++ b) = countResolves a + countResolves b := by
  induction a with
  | nil => simp [countResolves]
  | cons x l ih =>
    cases x with
    | resolveStep => simp [countResolves, ih]; omega
    | groupStep j => simp [countResolves, ih]

theorem countResolves_stepPattern (idxs : List Nat) :
    countResolves (stepPattern idxs) = idxs.length := by
  induction idxs with
  | nil => rfl
  | cons j js ih => simp [stepPattern, countResolves, ih]

theorem stepPattern_append (a b : List Nat) :
    stepPattern (a ++ b) = stepPattern a ++ stepPattern b := by
  induction a with
  | nil => rfl
  | cons j js ih => simp [stepPattern, ih]

theorem groupStep_mem_stepPattern (j : Nat) (idxs : List Nat) :
    OAct.groupStep j ∈ stepPattern idxs ↔ j ∈ idxs := by
  induction idxs with
  | nil => simp [stepPattern]
  | cons i is ih => simp [stepPattern, ih]

theorem runGroupsLoop_ok (conns : List (Nat × Nat))
    (hres : ∀ h, ∃ h2, resolveConns conns h = .ok h2) :
    ∀ (gs : List (List Child)) (i : Nat) (st : OrchSt),
      (∀ g ∈ gs, groupFailureMsg g = none) →
      ∃ st2, runGroupsLoop conns i gs st = (st2, none) ∧
        st2.log = st.log ++ stepPattern (List.range' i gs.length) := by
  intro gs
  induction gs with
  | nil =>
    intro i st _
    exact ⟨st, rfl, by simp [stepPattern]⟩
  | cons g rest ih =>
    intro i st hok
    obtain ⟨h2, hr⟩ := hres st.heap
    unfold runGroupsLoop
    rw [hr]
    dsimp only
    have hg : (runGroup h2 g).2 = none := hok g (List.mem_cons_self g rest)
    rw [hg]
    obtain ⟨st2, hloop, hlog⟩ := ih (i + 1)
      { st with heap := (runGroup h2 g).1,
                log := st.log ++ [.resolveStep] ++ [.groupStep i] }
      (fun g' hg' => hok g' (List.mem_cons_of_mem _ hg'))
    refine ⟨st2, hloop, ?_⟩
    rw [hlog]
    show (st.log ++ [.resolveStep] ++ [.groupStep i]) ++ _ = _
    rw [List.length_cons, List.range'_succ]
    simp [stepPattern, List.append_assoc]

theorem runGroupsLoop_fail (conns : List (Nat × Nat))
    (hres : ∀ h, ∃ h2, resolveConns conns h = .ok h2) :
    ∀ (k : Nat) (gs : List (List Child)) (i : Nat) (st : OrchSt) (m : String),
      (∀ j, j < k → groupFailureMsg (gs.getD j []) = none) →
      groupFailureMsg (gs.getD k []) = some m →
      k < gs.length →
      ∃ st2, runGroupsLoop conns i gs st = (st2, some m) ∧
        st2.log = st.log ++ stepPattern (List.range' i (k + 1)) := by
  intro k
  induction k with
  | zero =>
    intro gs i st m _ hk hlen
    match gs with
    | [] => simp at hlen
    | g :: rest =>
      obtain ⟨h2, hr⟩ := hres st.heap
      unfold runGroupsLoop
      rw [hr]
      dsimp only
      have hg : (runGroup h2 g).2 = some m := by
        simpa [runGroup] using hk
      rw [hg]
      refine ⟨_, rfl, ?_⟩
      show st.log ++ [.resolveStep] ++ [.groupStep i] = _
      simp [List.range'_succ, stepPattern, List.append_assoc]
  | succ k ihk =>
    intro gs i st m hpre hk hlen
    match gs with
    | [] => simp at hlen
    | g :: rest =>
      obtain ⟨h2, hr⟩ := hres st.heap
      unfold runGroupsLoop
      rw [hr]
      dsimp only
      have hg0 : groupFailureMsg g = none := by
        simpa using hpre 0 (Nat.succ_pos k)
      have hg : (runGroup h2 g).2 = none := hg0
      rw [hg]
      obtain ⟨st2, hloop, hlog⟩ := ihk rest (i + 1)
        { st with heap := (runGroup h2 g).1,
                  log := st.log ++ [.resolveStep] ++ [.groupStep i] }
        m
        (fun j hj => by simpa using hpre (j + 1) (Nat.succ_lt_succ hj))
        (by simpa using hk)
        (by simp at hlen; omega)
      refine ⟨st2, hloop, ?_⟩
      rw [hlog]
      show (st.log ++ [.resolveStep] ++ [.groupStep i]) ++ _ = _
      rw [List.range'_succ]
      simp [stepPattern, List.append_assoc]

theorem heapGet_set_ne (h : Heap) (i j : Nat) (p : Param) (hij : i ≠ j) :
    heapGet (h.set i p) j = heapGet h j := by
  simp [heapGet, List.getD, List.getElem?_set_ne hij]

theorem heapGet_set_self (h : Heap) (i : Nat) (p : Param) (hi : i < h.length) :
    heapGet (h.set i p) i = p := by
  simp [heapGet, List.getD, List.getElem?_set_self hi]

theorem validate_type_set_value (p : Param) (w val : Option Val) :
    validate_type { p with value := w } val = validate_type p val := rfl

theorem setValue_ok (p : Param) (v : Val) (hl : p.locked = false)
    (hty : validate_type p (some v) = true) :
    setValue p (some v) = ({ p with value := some v }, none) := by
  simp [setValue, hl, hty]

theorem resolveOne_copy (h : Heap) (s t : Nat) (v : Val)
    (hs : (heapGet h s).value = some v)
    (hl : (heapGet h t).locked = false)
    (hty : validate_type (heapGet h t) (some v) = true) :
    resolveOne h (s, t) = .ok (h.set t { heapGet h t with value := some v }) := by
  unfold resolveOne
  dsimp only
  rw [hs]
  dsimp only
  rw [setValue_ok _ _ hl hty]

/-- C5: the shape of the connection-resolution schedule.  (a) a pair whose
source value is null is skipped; (b) pairs are resolved in declaration
order, so of two connections targeting the same parameter the later one's
value is the one left in the target; (c) in an execution where every group
succeeds (and every pass's copies succeed), exactly one resolution pass
runs before each of the `n` groups and one more after the last group —
`n + 1` passes in total; (d) when group `k` is the first to fail, exactly
`k + 1` passes run and the log ends with the failed group — no pass runs
after it. -/
theorem c5_resolution_schedule :
    (∀ (h : Heap) (s t : Nat), (heapGet h s).value = none →
      resolveOne h (s, t) = .ok h) ∧
    (∀ (h : Heap) (s1 s2 t : Nat) (v1 v2 : Val),
      (heapGet h s1).value = some v1 → (heapGet h s2).value = some v2 →
      s2 ≠ t → t < h.length →
      (heapGet h t).locked = false →
      validate_type (heapGet h t) (some v1) = true →
      validate_type (heapGet h t) (some v2) = true →
      ∃ h2, resolveConns [(s1, t), (s2, t)] h = .ok h2 ∧
        (heapGet h2 t).value = some v2) ∧
    (∀ (orch : OrchSt → OrchSt) (st : OrchSt),
      st.orchestration_defined = true → st.log = [] →
      (∀ h, ∃ h2, resolveConns st.connections h = .ok h2) →
      (∀ g ∈ group_processes st.children, groupFailureMsg g = none) →
      ∃ st2, orchImpl orch st = (st2, none) ∧
        st2.log =
          stepPattern (List.range' 0 (group_processes st.children).length) ++
            [OAct.resolveStep] ∧
        countResolves st2.log = (group_processes st.children).length + 1) ∧
    (∀ (orch : OrchSt → OrchSt) (st : OrchSt) (k : Nat) (m : String),
      st.orchestration_defined = true → st.log = [] →
      (∀ h, ∃ h2, resolveConns st.connections h = .ok h2) →
      (∀ j, j < k → groupFailureMsg ((group_processes st.children).getD j []) = none) →
      groupFailureMsg ((group_processes st.children).getD k []) = some m →
      k < (group_processes st.children).length →
      ∃ st2, orchImpl orch st = (st2, some m) ∧
        st2.log = stepPattern (List.range' 0 (k + 1)) ∧
        countResolves st2.log = k + 1 ∧
        ∃ pre, st2.log = pre ++ [OAct.groupStep k]) := by
  refine ⟨?_, ?_, ?_, ?_⟩
  · intro h s t hnone
    simp [resolveOne, hnone]
  · intro h s1 s2 t v1 v2 h1 h2 hne ht hl hty1 hty2
    have e1 := resolveOne_copy h s1 t v1 h1 hl hty1
    have htgt : heapGet (h.set t { heapGet h t with value := some v1 }) t =
        { heapGet h t with value := some v1 } :=
      heapGet_set_self h t _ ht
    have hl2 : (heapGet (h.set t { heapGet h t with value := some v1 }) t).locked =
        false := by
      rw [htgt]; exact hl
    have hty2b : validate_type
        (heapGet (h.set t { heapGet h t with value := some v1 }) t) (some v2) =
        true := by
      rw [htgt]; exact hty2
    have hs2 : (heapGet (h.set t { heapGet h t with value := some v1 }) s2).value =
        some v2 := by
      rw [heapGet_set_ne _ _ _ _ hne.symm]
      exact h2
    have e2 := resolveOne_copy (h.set t { heapGet h t with value := some v1 })
      s2 t v2 hs2 hl2 hty2b
    refine ⟨(h.set t { heapGet h t with value := some v1 }).set t
        { heapGet (h.set t { heapGet h t with value := some v1 }) t with
            value := some v2 }, ?_, ?_⟩
    · simp only [resolveConns]
      rw [e1]
      dsimp only
      rw [e2]
    · rw [heapGet_set_self _ _ _ (by simpa using ht)]
  · intro orch st hdef hlog hres hok
    have hcp : composePhase orch st = st := composePhase_of_defined orch st hdef
    obtain ⟨st2, hloop, hlog2⟩ :=
      runGroupsLoop_ok st.connections hres (group_processes st.children) 0 st hok
    obtain ⟨h2, hr2⟩ := hres st2.heap
    have himpl : orchImpl orch st =
        ({ st2 with heap := h2, log := st2.log ++ [.resolveStep] }, none) := by
      unfold orchImpl
      rw [hcp, hloop]
      dsimp only
      rw [hr2]
    refine ⟨_, himpl, ?_, ?_⟩
    · show st2.log ++ [OAct.resolveStep] = _
      rw [hlog2, hlog]
      simp
    · show countResolves (st2.log ++ [OAct.resolveStep]) = _
      rw [hlog2, hlog]
      simp [countResolves_append, countResolves_stepPattern, countResolves]
  · intro orch st k m hdef hlog hres hpre hk hlen
    have hcp : composePhase orch st = st := composePhase_of_defined orch st hdef
    obtain ⟨st2, hloop, hlog2⟩ :=
      runGroupsLoop_fail st.connections hres k (group_processes st.children) 0 st
        m hpre hk hlen
    have himpl : orchImpl orch st = (st2, some m) := by
      unfold orchImpl
      rw [hcp, hloop]
    have hfinal : st2.log = stepPattern (List.range' 0 (k + 1)) := by
      rw [hlog2, hlog]
      simp
    refine ⟨st2, himpl, hfinal, ?_, ?_⟩
    · rw [hfinal]
      simp [countResolves_stepPattern]
    · refine ⟨stepPattern (List.range' 0 k) ++ [OAct.resolveStep], ?_⟩
      rw [hfinal, List.range'_1_concat, stepPattern_append]
      simp [stepPattern, List.append_assoc]

/-- A child that executes successfully with no effect on the pool. -/
def okChild : Child := { name := "w1", effect := id, outcome := .ok }

/-- A child whose `execute()` returns `False` with error `"boom"`. -/
def failChild : Child :=
  { name := "w2", effect := id, outcome := .failedWith "boom" }

/-- A composed orchestration with one succeeding sequential child. -/
def okOrchSt : OrchSt :=
  { heap := [], orchestration_defined := true,
    children := [(okChild, .sequential)], connections := [], log := [] }

/-- A composed orchestration with one failing sequential child. -/
def failOrchSt : OrchSt :=
  { heap := [], orchestration_defined := true,
    children := [(failChild, .sequential)], connections := [], log := [] }

/-- Connection source holding `8`. -/
def srcA : Param :=
  { name := "a", param_type := .complexT, required := true,
    value := some (.vInt 8), locked := false, phase := .init }

/-- Connection source holding `9`. -/
def srcB : Param :=
  { name := "b", param_type := .complexT, required := true,
    value := some (.vInt 9), locked := false, phase := .init }

/-- An unlocked target both connections point at. -/
def tgtC : Param :=
  { name := "c", param_type := .complexT, required := false,
    value := none, locked := false, phase := .init }

/-- Pool with two sources and one shared target. -/
def twoSrcHeap : Heap := [srcA, srcB, tgtC]

/-- Witness for C5: the null-source skip, the last-writer-wins order on a
shared target, the `n + 1` passes of a one-group success, and the single
pass of a failure in group 0. -/
theorem c5_witness :
    resolveOne [dummyParam] (0, 0) = .ok [dummyParam] ∧
    (∃ h2, resolveConns [(0, 2), (1, 2)] twoSrcHeap = .ok h2 ∧
      (heapGet h2 2).value = some (Val.vInt 9)) ∧
    (∃ st2, orchImpl id okOrchSt = (st2, none) ∧
      st2.log = stepPattern (List.range' 0 (group_processes okOrchSt.children).length) ++
        [OAct.resolveStep] ∧
      countResolves st2.log = (group_processes okOrchSt.children).length + 1) ∧
    (∃ st2, orchImpl id failOrchSt = (st2, some (failMsg "w2" "boom")) ∧
      st2.log = stepPattern (List.range' 0 1) ∧
      countResolves st2.log = 1 ∧
      ∃ pre, st2.log = pre ++ [OAct.groupStep 0]) := by
  refine ⟨c5_resolution_schedule.1 [dummyParam] 0 0 rfl, ?_, ?_, ?_⟩
  · exact c5_resolution_schedule.2.1 twoSrcHeap 0 1 2 (.vInt 8) (.vInt 9)
      rfl rfl (by decide) (by decide) rfl rfl rfl
  · exact c5_resolution_schedule.2.2.1 id okOrchSt rfl rfl (fun h => ⟨h, rfl⟩)
      (by
        intro g hg
        rw [show group_processes okOrchSt.children = [[okChild]] from rfl] at hg
        simp at hg
        subst hg
        rfl)
  · exact c5_resolution_schedule.2.2.2 id failOrchSt 0 (failMsg "w2" "boom")
      rfl rfl (fun h => ⟨h, rfl⟩)
      (fun j hj => absurd hj (Nat.not_lt_zero j)) rfl (by decide)

/-! ### C4: how child failures propagate to the orchestration -/

theorem failMsg_data (nm msg : String) :
    (failMsg nm msg).data =
      "Process '".data ++ nm.data ++ ("' failed: ".data ++ msg.data) := by
  simp [failMsg, String.data_append, List.append_assoc]

theorem name_infix_failMsg (nm msg : String) :
    nm.data <:+: (failMsg nm msg).data :=
  ⟨"Process '".data, "' failed: ".data ++ msg.data,
    by rw [failMsg_data]⟩

theorem msg_infix_failMsg (nm msg : String) :
    msg.data <:+: (failMsg nm msg).data :=
  ⟨"Process '".data ++ nm.data ++ "' failed: ".data, [],
    by rw [failMsg_data]; simp [List.append_assoc]⟩

/-- A child whose `execute()` raises with message `"xyz"` (a child can
raise, e.g. when one of its own locally registered "failed" handlers
raises, see C3). -/
def raisingChild : Child :=
  { name := "worker", effect := id, outcome := .raisedExn "xyz" }

/-- A composed orchestration whose sole (sequential) child raises. -/
def seqRaiseOrch : OrchSt :=
  { heap := [], orchestration_defined := true,
    children := [(raisingChild, .sequential)], connections := [], log := [] }

/-- C4 counterexample: when the sole sequential child's execution
*raises* (rather than returning `False`), the orchestration does end
FAILED with `False`, but its error string is the child's raw exception
message — the sequential branch at process.py line 431 does not wrap a
raised exception with the child's name (only the `False`-return branch at
lines 433-436 and the gather branch at lines 442-451 wrap).  Here the
child is named `"worker"` and the orchestration's error is just `"xyz"`,
which does not contain the child's name. -/
theorem c4_counterexample :
    (execute (quietEnv (orchWrap id) 0 1) (initProc [] [] seqRaiseOrch)).1 =
        .ret false ∧
      (execute (quietEnv (orchWrap id) 0 1) (initProc [] [] seqRaiseOrch)).2.1.status =
        .failed ∧
      (execute (quietEnv (orchWrap id) 0 1) (initProc [] [] seqRaiseOrch)).2.1.error =
        some "xyz" ∧
      ¬ ("worker".data <:+: "xyz".data) :=
  ⟨rfl, rfl, rfl, by decide⟩

/-- C4 amended: if the first failure in the group sequence is a child
that *returns* failure (wrapped by both the sequential and the gather
branch; a raise inside a parallel group is wrapped the same way), the
orchestration's `execute()` returns `False` with status FAILED, its error
string is the wrapping message — which contains the child's name and the
child's own error message — and no group after the failing child's group
is executed.  A raise from a *singleton* group's child propagates with
only that exception's message (see the counterexample). -/
theorem c4_child_failure_blame (orch : OrchSt → OrchSt) (n1 n2 : Nat)
    (inp out : ParamList) (x : OrchSt) (k : Nat) (nm msg : String)
    (hdef : x.orchestration_defined = true)
    (hlog : x.log = [])
    (hval : validateAll inp = .ok true)
    (hres : ∀ h, ∃ h2, resolveConns x.connections h = .ok h2)
    (hpre : ∀ j, j < k →
      groupFailureMsg ((group_processes x.children).getD j []) = none)
    (hfail : groupFailureMsg ((group_processes x.children).getD k []) =
      some (failMsg nm msg))
    (hlen : k < (group_processes x.children).length) :
    ∃ st2 tr,
      execute (quietEnv (orchWrap orch) n1 n2) (initProc inp out x) =
        (.ret false, st2, tr) ∧
      st2.status = .failed ∧
      st2.error = some (failMsg nm msg) ∧
      nm.data <:+: (failMsg nm msg).data ∧
      msg.data <:+: (failMsg nm msg).data ∧
      (∀ j, OAct.groupStep j ∈ st2.extra.log → j ≤ k) := by
  have hcp : composePhase orch x = x := composePhase_of_defined orch x hdef
  obtain ⟨stO, hloop, hlogO⟩ :=
    runGroupsLoop_fail x.connections hres k (group_processes x.children) 0 x
      (failMsg nm msg) hpre hfail hlen
  have himpl : orchImpl orch x = (stO, some (failMsg nm msg)) := by
    unfold orchImpl
    rw [hcp, hloop]
  have hstep : execute (quietEnv (orchWrap orch) n1 n2) (initProc inp out x) =
      exceptPath (quietEnv (orchWrap orch) n1 n2)
        { initProc inp out x with
            status := .running, started_at := some n1,
            input := lockAll inp, extra := stO }
        ([Act.setRunning, Act.setStarted, Act.emitStarted] ++
          [Act.validateInputs, Act.lockInputs, Act.runImpl])
        (failMsg nm msg) := by
    show execAfterStart (quietEnv (orchWrap orch) n1 n2)
        { initProc inp out x with status := .running, started_at := some n1 }
        [Act.setRunning, Act.setStarted, Act.emitStarted] = _
    unfold execAfterStart
    dsimp only [initProc]
    rw [hval]
    dsimp only [quietEnv, orchWrap]
    rw [himpl]
  rw [hstep, exceptPath_ret _ _ _ _ rfl]
  refine ⟨_, _, rfl, rfl, rfl, name_infix_failMsg nm msg, msg_infix_failMsg nm msg,
    ?_⟩
  intro j hj
  have hlogF : stO.log = stepPattern (List.range' 0 (k + 1)) := by
    rw [hlogO, hlog]
    simp
  have hmem : OAct.groupStep j ∈ stepPattern (List.range' 0 (k + 1)) := by
    have hj2 : OAct.groupStep j ∈ stO.log := hj
    rwa [hlogF] at hj2
  have h1 := (groupStep_mem_stepPattern j _).mp hmem
  have h2 := List.mem_range'_1.mp h1
  omega

/-- A composed two-group orchestration: group 0 succeeds, group 1 fails
with `"boom"`. -/
def twoGroupOrch : OrchSt :=
  { heap := [], orchestration_defined := true,
    children := [(okChild, .sequential), (failChild, .sequential)],
    connections := [], log := [] }

/-- Witness for the amended C4: a two-group orchestration whose second
group's child returns failure ends FAILED with the wrapping error, and no
group after index 1 runs. -/
theorem c4_witness :
    ∃ st2 tr,
      execute (quietEnv (orchWrap id) 0 1) (initProc [] [] twoGroupOrch) =
        (.ret false, st2, tr) ∧
      st2.status = .failed ∧
      st2.error = some (failMsg "w2" "boom") ∧
      ("w2".data <:+: (failMsg "w2" "boom").data) ∧
      ("boom".data <:+: (failMsg "w2" "boom").data) ∧
      (∀ j, OAct.groupStep j ∈ st2.extra.log → j ≤ 1) :=
  c4_child_failure_blame id 0 1 [] [] twoGroupOrch 1 "w2" "boom"
    rfl rfl rfl (fun h => ⟨h, rfl⟩)
    (by
      intro j hj
      interval_cases j
      rfl)
    rfl (by decide)

end SWFME
